import Mathlib

/-!
Verification development for the electrolyte Ion data-model library.

Shallow embedding of the Rust sources:
  * `src/types.rs`  — `IonValue`, `IonType`, `IonStruct`, `IonList` and accessors
  * `src/error.rs`  — `IonError`, `IonErrorType`
  * `src/walker.rs` — `IonWalker`, the `type_fns!` accessor family, `get_type`
  * `src/traits.rs` — the `IonDeserialize` protocol (modelled as an explicit
    function argument standing for `T::deserialize`)
  * `src/reader.rs` — `IonReader::read_string` / `read_value` / `read_struct` /
    `read_list`, driven by a tree of decoder events standing for the event
    stream the `ion_c_sys` pull decoder would produce.

Modelling conventions:
  * Rust `f64` is idealised as `Rat` (exact rational arithmetic); the numeric
    claims below are about which mathematical value is computed, not about
    IEEE-754 rounding.
  * Rust `HashMap<String, V>` is modelled as an association list with
    `HashMap::insert` semantics (`mapInsert` replaces the value of an existing
    key in place, otherwise appends); iteration order of the model is the list
    order, standing for the unspecified `HashMap` iteration order.
  * `chrono::DateTime<FixedOffset>` is opaque to every claim; it is modelled
    as `Int`.
  * A Rust panic (`unwrap` on `None`) is a distinct outcome `BRes.panic`,
    separate from `Err` results, so that "returns an error" and "aborts" can
    be told apart.
-/

/-- Model of `IonType` from `src/types.rs`: the value-less enumeration of Ion types. -/
inductive IonType
  | Null
  | Boolean
  | Integer
  | Float
  | Timestamp
  | String
  | Blob
  | List
  | Struct
  deriving DecidableEq, Repr

/-- Model of `IonErrorType` from `src/error.rs`.  The `std::io::Error` and `IonCError`
payloads are opaque to every claim and are modelled as `String`; the source
constructor `MissingAnnotation` is shortened to `MissingAnn` (its payload is
kept). -/
inductive IonErrorType
  | InvalidValue (s : String)
  | MissingField (name : String)
  | WrongType (found : IonType) (expected : IonType)
  | WrongSize (found : Nat) (expected : Nat)
  | IoError (msg : String)
  | ParseError (msg : String)
  | TypeNotSupported (name : String)
  | MissingAnn (expected : List String)
  | IndexOutOfBounds (tried : Nat) (lo : Nat) (hi : Nat)
  deriving DecidableEq, Repr

/-- Model of `IonError` from `src/error.rs`: an error kind plus the scope path. -/
structure IonError where
  ty : IonErrorType
  scopes : List String
  deriving DecidableEq, Repr

/-- Model of `IonError::new`. -/
def IonError.new (ty : IonErrorType) (scopes : List String) : IonError :=
  ⟨ty, scopes⟩

/-- Model of `IonValue` from `src/types.rs`.  The `IonList` / `IonStruct` wrappers are
flattened into the constructor payloads (`List IonValue`, resp. an association
list standing for `HashMap<String, IonValue>`); `f64` is idealised as `Rat`
and the timestamp payload as `Int` (opaque to all claims). -/
inductive IonValue
  | Null (ann : List String)
  | Boolean (b : Bool) (ann : List String)
  | Integer (i : Int) (ann : List String)
  | Float (f : Rat) (ann : List String)
  | Timestamp (t : Int) (ann : List String)
  | Blob (bytes : List Nat) (ann : List String)
  | String (s : String) (ann : List String)
  | List (items : List IonValue) (ann : List String)
  | Struct (fields : List (String × IonValue)) (ann : List String)

/-- Model of `pub type Annotations` from `src/types.rs`. -/
abbrev Annotations := List String

/-- The field map of `IonStruct` (`src/types.rs`): `HashMap<String, IonValue>`
modelled as an association list. -/
abbrev IonStruct := List (String × IonValue)

/-- The item list of `IonList` (`src/types.rs`). -/
abbrev IonList := List IonValue

/-- Rust `&str` / `String` (alias used in signatures inside the `IonValue`
namespace, where the bare name `String` would denote the constructor). -/
abbrev str := String

/-- Model of `IonValue::ty` from `src/types.rs`. -/
def IonValue.ty : IonValue → IonType
  | .Null _ => .Null
  | .Boolean _ _ => .Boolean
  | .Integer _ _ => .Integer
  | .Float _ _ => .Float
  | .Timestamp _ _ => .Timestamp
  | .String _ _ => .String
  | .Blob _ _ => .Blob
  | .List _ _ => .List
  | .Struct _ _ => .Struct

/-- Model of `IonValue::as_struct`. -/
def IonValue.as_struct : IonValue → Option IonStruct
  | .Struct st _ => some st
  | _ => none

/-- Model of `IonValue::as_list`. -/
def IonValue.as_list : IonValue → Option IonList
  | .List l _ => some l
  | _ => none

/-- Model of `IonValue::as_list_sized::<N>`: the list payload when the value is a list
of exactly `N` items (the source re-borrows `items[0..N]`, which under
`len == N` is the whole list), `none` otherwise. -/
def IonValue.as_list_sized (N : Nat) : IonValue → Option IonList
  | .List l _ => if l.length = N then some (l.take N) else none
  | _ => none

/-- Model of `IonValue::as_bool`. -/
def IonValue.as_bool : IonValue → Option Bool
  | .Boolean b _ => some b
  | _ => none

/-- Model of `IonValue::as_int`. -/
def IonValue.as_int : IonValue → Option Int
  | .Integer i _ => some i
  | _ => none

/-- Model of `IonValue::as_float`: returns the float payload, and coerces an integer
payload (`i as f64`, idealised as the exact rational). -/
def IonValue.as_float : IonValue → Option Rat
  | .Float f _ => some f
  | .Integer i _ => some (i : Rat)
  | _ => none

/-- Model of `IonValue::as_str`. -/
def IonValue.as_str : IonValue → Option str
  | .String s _ => some s
  | _ => none

/-- Model of `IonValue::as_timestamp`. -/
def IonValue.as_timestamp : IonValue → Option Int
  | .Timestamp t _ => some t
  | _ => none

/-- Model of `IonValue::is`. -/
def IonValue.is (v : IonValue) (t : IonType) : Bool :=
  v.ty = t

/-! The `HashMap<String, IonValue>` model

`mapInsert` is `HashMap::insert`: it replaces the value stored under an
existing key and otherwise adds a fresh entry; `IonStruct.field` is
`HashMap::get` (the source function `IonStruct::field`). -/

/-- Model of `HashMap::insert` on the association-list model (replace or append). -/
def mapInsert (k : String) (v : IonValue) : IonStruct → IonStruct
  | [] => [(k, v)]
  | (k₁, v₁) :: rest =>
    if k₁ = k then (k₁, v) :: rest else (k₁, v₁) :: mapInsert k v rest

/-- Model of `IonStruct::field` from `src/types.rs` (`HashMap::get`). -/
def IonStruct.field : IonStruct → String → Option IonValue
  | [], _ => none
  | (k, v) :: rest, name => if k = name then some v else IonStruct.field rest name

/-! Errors as results

`IonResult<T>` is `Except IonError T`.  For the reader (`src/reader.rs`),
whose decimal branch contains an `unwrap` that can panic, results live in
`BRes` instead, which separates a Rust panic from an `Err` return. -/

/-- Model of `IonResult<T>` from `src/error.rs`. -/
abbrev IonResult (α : Type) := Except IonError α

/-- Outcome of a reader operation: a value, an `Err` return, or a panic. -/
inductive BRes (α : Type)
  | ok (a : α)
  | err (e : IonError)
  | panic
  deriving Repr

/-! The scoped walker (`src/walker.rs`) -/

/-- Model of `IonWalker` from `src/walker.rs`: a value (the Rust field is a shared
reference, embedded by value) plus the scope path. -/
structure IonWalker where
  data : IonValue
  scopes : List String

/-- Model of `IonWalker::new`. -/
def IonWalker.new (data : IonValue) : IonWalker :=
  ⟨data, []⟩

/-- Model of `IonWalker::with_scopes`. -/
def IonWalker.with_scopes (data : IonValue) (scopes : List String) : IonWalker :=
  ⟨data, scopes⟩

/-- Model of `IonWalker::clone_with_scope`: a copy of the walker with one scope
appended (the source clones the scope vector and pushes). -/
def IonWalker.clone_with_scope (w : IonWalker) (scope : String) : IonWalker :=
  ⟨w.data, w.scopes ++ [scope]⟩

/-- Model of `IonWalker::clone_scopes`. -/
def IonWalker.clone_scopes (w : IonWalker) : List String :=
  w.scopes

/-- Model of `IonWalker::clone_scopes_with`. -/
def IonWalker.clone_scopes_with (w : IonWalker) (scope : String) : List String :=
  w.scopes ++ [scope]

/-- Model of `IonWalker::error`. -/
def IonWalker.error (w : IonWalker) (e : IonErrorType) : IonError :=
  IonError.new e w.clone_scopes

/-! The `type_fns!` macro (`src/walker.rs`, lines 7–38)

The macro generates, for each Ion kind `K`, an `as_K` and a `get_K` whose
shared shape is captured once below: a successful match returns the matched
value (each concrete instance then projects the payload out of the matched
constructor), a mismatch builds the `WrongType` error, an absent field the
`MissingField` error.  `val.ty = K` is exactly the macro
`IonValue::K(..)` pattern test. -/

/-- The `as_K` shape of `type_fns!`: narrow the current value to kind `K`. -/
def IonWalker.as_ty (w : IonWalker) (K : IonType) : IonResult IonValue :=
  if w.data.ty = K then .ok w.data
  else .error (IonError.new (.WrongType w.data.ty K) w.clone_scopes)

/-- Model of `IonWalker::as_struct` (a `type_fns!` instance), returning the field map. -/
def IonWalker.as_struct (w : IonWalker) : IonResult IonStruct :=
  match w.data with
  | .Struct st _ => .ok st
  | _ => .error (IonError.new (.WrongType w.data.ty .Struct) w.clone_scopes)

/-- Model of `IonWalker::as_integer` (a `type_fns!` instance). -/
def IonWalker.as_integer (w : IonWalker) : IonResult Int :=
  match w.data with
  | .Integer i _ => .ok i
  | _ => .error (IonError.new (.WrongType w.data.ty .Integer) w.clone_scopes)

/-- Model of `IonWalker::as_float` (a `type_fns!` instance). -/
def IonWalker.as_float (w : IonWalker) : IonResult Rat :=
  match w.data with
  | .Float f _ => .ok f
  | _ => .error (IonError.new (.WrongType w.data.ty .Float) w.clone_scopes)

/-- The `get_K` shape of `type_fns!`: `self.as_struct()?`, look the field up,
then narrow it to kind `K`, returning the matched value. -/
def IonWalker.get_ty (w : IonWalker) (K : IonType) (field_name : String) :
    IonResult IonValue :=
  match w.as_struct with
  | .error e => .error e
  | .ok st =>
    match st.field field_name with
    | some val =>
      if val.ty = K then .ok val
      else .error (IonError.new (.WrongType val.ty K)
        (w.clone_scopes_with field_name))
    | none => .error (IonError.new (.MissingField field_name)
        (w.clone_scopes_with field_name))

/-- Model of `IonWalker::get_integer` (a `type_fns!` instance): `get_ty` at `Integer`
with the payload projected out. -/
def IonWalker.get_integer (w : IonWalker) (field_name : String) : IonResult Int :=
  match w.get_ty .Integer field_name with
  | .ok v => match v.as_int with
             | some i => .ok i
             | none => .error (IonError.new (.InvalidValue "unreachable") [])
  | .error e => .error e

/-! The deserialization protocol (`src/traits.rs`)

`IonDeserialize` is a trait whose sole method is
`deserialize(walker) -> IonResult<Self>`; it is embedded as an explicit
function argument `des : IonWalker → IonResult T` standing for
`T::deserialize`. -/

/-- Model of `impl IonDeserialize for i64` from `src/traits.rs`. -/
def i64.deserialize (w : IonWalker) : IonResult Int :=
  w.as_integer

/-- Model of `impl IonDeserialize for f64` from `src/traits.rs`. -/
def f64.deserialize (w : IonWalker) : IonResult Rat :=
  w.as_float

/-- Model of `IonWalker::deserialize` from `src/walker.rs`. -/
def IonWalker.deserialize {T : Type} (des : IonWalker → IonResult T)
    (data : IonValue) : IonResult T :=
  des (IonWalker.new data)

/-- Model of `IonWalker::deserialize_with_scopes` from `src/walker.rs`. -/
def IonWalker.deserialize_with_scopes {T : Type} (des : IonWalker → IonResult T)
    (data : IonValue) (scopes : List String) : IonResult T :=
  des (IonWalker.with_scopes data scopes)

/-- Model of `IonWalker::get_type` from `src/walker.rs`: look the field up and run
`T::deserialize` on a walker over it whose path is extended with the field
name. -/
def IonWalker.get_type {T : Type} (des : IonWalker → IonResult T)
    (w : IonWalker) (field_name : String) : IonResult T :=
  match w.as_struct with
  | .error e => .error e
  | .ok st =>
    match st.field field_name with
    | some field => des ⟨field, w.clone_scopes_with field_name⟩
    | none => .error (IonError.new (.MissingField field_name)
        (w.clone_scopes_with field_name))

/-- Model of `IonWalker::as_type` from `src/walker.rs`. -/
def IonWalker.as_type {T : Type} (des : IonWalker → IonResult T)
    (w : IonWalker) : IonResult T :=
  des w

/-- Loop of `IonStruct::into_map_of` from `src/types.rs`: deserialize every
field value with the scope list passed through unchanged, collecting the
results into a fresh map (fresh keys, so plain cons).  The fields are walked
in the model iteration order; the first failure aborts. -/
def into_map_go {T : Type} (des : IonWalker → IonResult T)
    (s : List String) : IonStruct → IonResult (List (String × T))
  | [] => .ok []
  | (k, v) :: rest =>
    match IonWalker.deserialize_with_scopes des v s with
    | .error e => .error e
    | .ok value =>
      match into_map_go des s rest with
      | .error e => .error e
      | .ok m => .ok ((k, value) :: m)

/-- Entry of `IonStruct::into_map_of`: `scopes.unwrap_or(Vec::new())`, then
the loop. -/
def IonStruct.into_map_of {T : Type} (des : IonWalker → IonResult T)
    (st : IonStruct) (scopes : Option (List String)) :
    IonResult (List (String × T)) :=
  into_map_go des (scopes.getD []) st

/-! The tree builder (`src/reader.rs`)

The external `ion_c_sys` pull decoder is abstracted by a tree of decoder
events: one `DecEvent` describes everything the decoder reports for one
value (its tag, its annotation list, its typed payload, and — for composites
— the events of its children in decode order).  `DecFields` / `DecItems` are
the event sequences a `step_in`-ed struct / list produces before `EOF`.
The five tags `read_value` rejects carry only their annotation list (the
source reads annotations before dispatching on the tag). -/

mutual
inductive DecEvent
  | dnull (ann : List String)
  | dbool (b : Bool) (ann : List String)
  | dint (i : Int) (ann : List String)
  | dfloat (f : Rat) (ann : List String)
  | ddecimal (bigint : Int) (exp : Int) (ann : List String)
  | dstring (s : String) (ann : List String)
  | dtimestamp (t : Int) (ann : List String)
  | dsymbol (ann : List String)
  | dsexp (ann : List String)
  | dclob (ann : List String)
  | dblob (ann : List String)
  | ddatagram (ann : List String)
  | dstruct (fields : DecFields) (ann : List String)
  | dlist (items : DecItems) (ann : List String)

inductive DecFields
  | nil
  | cons (name : String) (ev : DecEvent) (rest : DecFields)

inductive DecItems
  | nil
  | cons (ev : DecEvent) (rest : DecItems)
end

/-- Twos-complement wrap of an integer into `bits` bits (Rust `as` casts and
release-mode wrapping arithmetic). -/
def wrapCast (bits : Nat) (x : Int) : Int :=
  (x + 2 ^ (bits - 1)) % 2 ^ bits - 2 ^ (bits - 1)

/-- Model of the num_bigint method `iter_u64_digits().next()`: the low 64-bit digit word of
the magnitude, little-endian — and `none` for zero, whose digit iterator is
empty. -/
def iterU64DigitsNext (n : Int) : Option Nat :=
  if n = 0 then none else some (n.natAbs % 2 ^ 64)

/-- The `ION_TYPE_DECIMAL` branch of `IonReader::read_value`
(`src/reader.rs` lines 47–53): take the low `u64` digit word of the
coefficient (`unwrap` panics on an empty iterator, i.e. coefficient zero),
cast it `as i64` (wrapping), negate it if the sign is `Minus` (wrapping in
release mode), then divide by `10f64.powi(exp as i32)` — idealised over the
rationals. -/
def readDecimal (bigint : Int) (exp : Int) (ann : List String) : BRes IonValue :=
  match iterU64DigitsNext bigint with
  | none => .panic
  | some d =>
    let coeff := wrapCast 64 d
    let coeff := if bigint < 0 then wrapCast 64 (-coeff) else coeff
    .ok (.Float ((coeff : Rat) / (10 : Rat) ^ wrapCast 32 exp) ann)

mutual
/-- Model of `IonReader::read_value` from `src/reader.rs`: dispatch on the
decoder-reported tag.  Scalar tags map to their `IonValue` variant; the five
unsupported tags return a `TypeNotSupported` error with an empty scope list;
composites recurse. -/
def read_value : DecEvent → BRes IonValue
  | .dnull ann => .ok (.Null ann)
  | .dsexp _ => .err (IonError.new (.TypeNotSupported "SExpr") [])
  | .dblob _ => .err (IonError.new (.TypeNotSupported "Blob") [])
  | .dclob _ => .err (IonError.new (.TypeNotSupported "Clob") [])
  | .dsymbol _ => .err (IonError.new (.TypeNotSupported "Symbol") [])
  | .ddatagram _ => .err (IonError.new (.TypeNotSupported "Datagram") [])
  | .dstruct fields ann =>
    match read_struct_fields [] fields with
    | .ok st => .ok (.Struct st ann)
    | .err e => .err e
    | .panic => .panic
  | .dlist items ann =>
    match read_list_items [] items with
    | .ok l => .ok (.List l ann)
    | .err e => .err e
    | .panic => .panic
  | .dstring s ann => .ok (.String s ann)
  | .dint i ann => .ok (.Integer i ann)
  | .dfloat f ann => .ok (.Float f ann)
  | .ddecimal bigint exp ann => readDecimal bigint exp ann
  | .dbool b ann => .ok (.Boolean b ann)
  | .dtimestamp t ann => .ok (.Timestamp t ann)

/-- The loop of `IonReader::read_struct`: read `(field name, value)` pairs
until `EOF`, inserting each into the accumulated `HashMap`
(`fields.insert(key, value)`, so a repeated name overwrites). -/
def read_struct_fields (acc : IonStruct) : DecFields → BRes IonStruct
  | .nil => .ok acc
  | .cons name ev rest =>
    match read_value ev with
    | .ok v => read_struct_fields (mapInsert name v acc) rest
    | .err e => .err e
    | .panic => .panic

/-- The loop of `IonReader::read_list`: read values until `EOF`, pushing each
onto the accumulated vector. -/
def read_list_items (acc : IonList) : DecItems → BRes IonList
  | .nil => .ok acc
  | .cons ev rest =>
    match read_value ev with
    | .ok v => read_list_items (acc ++ [v])  rest
    | .err e => .err e
    | .panic => .panic
end

/-- Model of `IonReader::read_struct` (entry: `step_in`, empty map, loop). -/
def read_struct (fields : DecFields) : BRes IonStruct :=
  read_struct_fields [] fields

/-- Model of `IonReader::read_list` (entry: `step_in`, empty vector, loop). -/
def read_list (items : DecItems) : BRes IonList :=
  read_list_items [] items

/-- Model of `IonReader::read_string` from `src/reader.rs`: loop `next()` /
`read_value` over the top-level values until `EOF`, returning the collected
items as an `IonValue::List` with an empty annotation list.  The top-level
loop is the same loop as in `read_list`. -/
def read_string (top : DecItems) : BRes IonValue :=
  match read_list_items [] top with
  | .ok items => .ok (.List items [])
  | .err e => .err e
  | .panic => .panic

/-! Definitions used only to state claims. -/

/-- The coefficient the decimal branch actually feeds into the scaling
(amended claim C1): the low 64-bit digit word of the coefficient magnitude,
cast `as i64` with twos-complement wrapping, then negated (wrapping) when
the coefficient is negative. -/
def lowWordCoeff (c : Int) : Int :=
  let w := wrapCast 64 (c.natAbs % 2 ^ 64)
  if c < 0 then wrapCast 64 (-w) else w

/-- Statement helper for claim C9: the event sequence decodes, element by
element and in order, to the given value list. -/
def decodesTo : DecItems → List IonValue → Prop
  | .nil, [] => True
  | .cons ev rest, v :: vs => read_value ev = .ok v ∧ decodesTo rest vs
  | .nil, _ :: _ => False
  | .cons _ _, [] => False

/-- Statement helper for claim C6: the field names of a struct event
sequence, in decode order (with duplicates). -/
def fieldNames : DecFields → List String
  | .nil => []
  | .cons k _ rest => k :: fieldNames rest

/-- Statement helper for claim C6: the event of the last occurrence of a
field name in a struct event sequence. -/
def lastEventFor (name : String) : DecFields → Option DecEvent
  | .nil => none
  | .cons k ev rest =>
    match lastEventFor name rest with
    | some e => some e
    | none => if k = name then some ev else none

/-! Helper lemmas. -/

theorem wrapCast_eq_self (bits : Nat) (x : Int) (hb : 1 ≤ bits)
    (h₁ : -(2 ^ (bits - 1)) ≤ x) (h₂ : x < 2 ^ (bits - 1)) :
    wrapCast bits x = x := by
  obtain ⟨b, rfl⟩ : ∃ b, bits = b + 1 := ⟨bits - 1, by omega⟩
  simp only [Nat.add_sub_cancel] at h₁ h₂
  unfold wrapCast
  simp only [Nat.add_sub_cancel]
  have h0 : (0 : Int) ≤ x + 2 ^ b := by linarith
  have hlt : x + 2 ^ b < 2 ^ (b + 1) := by rw [pow_succ]; linarith
  rw [Int.emod_eq_of_lt h0 hlt]
  ring

theorem div_zpow_neg (x : Rat) (e : Int) : x / (10 : Rat) ^ (-e) = x * (10 : Rat) ^ e := by
  rw [zpow_neg, div_inv_eq_mul]

/-- C7: `as_list_sized::<N>` returns the N-element list exactly when the
value is a sequence of length N; for a sequence of any other length and for
every non-sequence value it returns `none` — never an error and never a
slice shorter than N. -/
theorem C7_as_list_sized (N : Nat) (v : IonValue) :
    (∀ items ann, v = .List items ann →
      (items.length = N → v.as_list_sized N = some items) ∧
      (items.length ≠ N → v.as_list_sized N = none)) ∧
    (v.ty ≠ .List → v.as_list_sized N = none) ∧
    (∀ arr, v.as_list_sized N = some arr → arr.length = N) := by
  refine ⟨?_, ?_, ?_⟩
  · rintro items ann rfl
    refine ⟨fun h => ?_, fun h => ?_⟩
    · subst h; simp [IonValue.as_list_sized]
    · simp [IonValue.as_list_sized, h]
  · intro h
    cases v <;> simp_all [IonValue.as_list_sized, IonValue.ty]
  · intro arr h
    cases v <;> simp only [IonValue.as_list_sized] at h <;>
      try exact Option.noConfusion h
    split at h
    · rename_i hlen
      cases h
      simp [List.length_take, hlen]
    · exact Option.noConfusion h

/-- Witness for C7 at a list of length 2 (probed with N = 2 and N = 3) and
at a non-list value. -/
theorem C7_witness :
    (IonValue.List [IonValue.Null [], IonValue.Null []] []).as_list_sized 2 =
      some [IonValue.Null [], IonValue.Null []] ∧
    (IonValue.List [IonValue.Null [], IonValue.Null []] []).as_list_sized 3 = none ∧
    (IonValue.Integer 0 []).as_list_sized 2 = none :=
  ⟨((C7_as_list_sized 2 _).1 _ _ rfl).1 rfl,
   ((C7_as_list_sized 3 _).1 _ _ rfl).2 (by decide),
   (C7_as_list_sized 2 _).2.1 (by decide)⟩

/-- C8: `as_float` returns the stored float for a `Float`, the integer
widened to float for an `Integer` (idealised as the exact rational), and
`none` for every other tag; and no other soft accessor coerces — each
returns `some` only on its exactly matching variant. -/
theorem C8_as_float (v : IonValue) :
    (∀ f ann, v = .Float f ann → v.as_float = some f) ∧
    (∀ i ann, v = .Integer i ann → v.as_float = some (i : Rat)) ∧
    (v.ty ≠ .Float → v.ty ≠ .Integer → v.as_float = none) ∧
    (∀ i, v.as_int = some i → ∃ ann, v = .Integer i ann) ∧
    (∀ b, v.as_bool = some b → ∃ ann, v = .Boolean b ann) ∧
    (∀ s, v.as_str = some s → ∃ ann, v = .String s ann) ∧
    (∀ t, v.as_timestamp = some t → ∃ ann, v = .Timestamp t ann) ∧
    (∀ st, v.as_struct = some st → ∃ ann, v = .Struct st ann) ∧
    (∀ l, v.as_list = some l → ∃ ann, v = .List l ann) := by
  cases v <;>
    simp [IonValue.as_float, IonValue.as_int, IonValue.as_bool,
      IonValue.as_str, IonValue.as_timestamp, IonValue.as_struct,
      IonValue.as_list, IonValue.ty]

/-- Witness for C8: the integer 2 is coerced by `as_float` and recovered
exactly by `as_int`. -/
theorem C8_witness :
    (IonValue.Integer 2 ["a"]).as_float = some ((2 : Int) : Rat) ∧
    (∃ ann, IonValue.Integer 2 ["a"] = IonValue.Integer 2 ann) :=
  ⟨(C8_as_float _).2.1 2 ["a"] rfl, (C8_as_float _).2.2.2.1 2 rfl⟩

/-- C10: `clone_with_scope` yields a walker over the same node with the path
extended by the label, `clone_scopes_with` yields the extended path, and the
original walker is untouched (the model is pure, mirroring the fact that the
source clones the scope vector before pushing); two descents from the same
walker each see only their own label. -/
theorem C10_clone_with_scope (w : IonWalker) (L L₂ : String) :
    (w.clone_with_scope L).data = w.data ∧
    (w.clone_with_scope L).scopes = w.scopes ++ [L] ∧
    w.clone_scopes_with L = w.scopes ++ [L] ∧
    (w.clone_with_scope L₂).scopes = w.scopes ++ [L₂] ∧
    ((w.clone_with_scope L).clone_with_scope L₂).scopes = w.scopes ++ [L, L₂] := by
  simp [IonWalker.clone_with_scope, IonWalker.clone_scopes_with]

/-- C4 (code bug): a decoder-reported decimal with coefficient zero makes
the builder panic — `iter_u64_digits()` over the zero big-integer is an
empty iterator and the `.next().unwrap()` in the decimal branch aborts —
instead of producing the `Float` value 0; the panic also aborts a whole
top-level document build. -/
theorem C4_zero_coeff_panic :
    read_value (.ddecimal 0 0 []) = .panic ∧
    read_string (.cons (.ddecimal 0 0 []) .nil) = .panic :=
  ⟨rfl, rfl⟩

/-- Counterexample to C1 as stated: for the decimal with coefficient
`2 ^ 63` and exponent 0, the low 64-bit digit word is `2 ^ 63` and the sign
is positive, so the claim predicts the value `2 ^ 63 × 10 ^ 0`; the `as i64`
cast in the source wraps the digit word to `-2 ^ 63`, so the builder
produces `-2 ^ 63` instead. -/
theorem C1_counterexample :
    read_value (.ddecimal (2 ^ 63) 0 []) = .ok (.Float (-(2 ^ 63 : Rat)) []) ∧
    (-(2 ^ 63 : Rat)) ≠ (2 ^ 63 : Rat) * (10 : Rat) ^ (0 : Int) := by
  constructor
  · simp [read_value, readDecimal, iterU64DigitsNext, wrapCast]
    norm_num
  · norm_num

/-- C1 amended: for every decimal with nonzero coefficient `c` and
(mathematical) exponent `e` in the `i32` range, the builder produces a
`Float` equal to the low 64-bit digit word of `c` cast `as i64`
(twos-complement wrapping), negated (wrapping) when `c` is negative, scaled
by `10 ^ e` — the sign is applied to the coefficient before the scaling,
and the arithmetic is idealised as exact rationals.  The decoder reports
the pair `(c, scale)` with `scale = -e`. -/
theorem C1_amended (c e : Int) (ann : List String) (hc : c ≠ 0)
    (h₁ : -(2 ^ 31) ≤ -e) (h₂ : -e < 2 ^ 31) :
    read_value (.ddecimal c (-e) ann) =
      .ok (.Float ((lowWordCoeff c : Rat) * (10 : Rat) ^ e) ann) := by
  have hw : wrapCast 32 (-e) = -e :=
    wrapCast_eq_self 32 (-e) (by norm_num) (by simpa using h₁) (by simpa using h₂)
  have key : read_value (.ddecimal c (-e) ann) =
      .ok (.Float ((lowWordCoeff c : Rat) / (10 : Rat) ^ wrapCast 32 (-e)) ann) := by
    simp [read_value, readDecimal, iterU64DigitsNext, hc, lowWordCoeff]
  rw [key, hw, div_zpow_neg]

/-- Witness for C1 amended: the decimal 0.05 (coefficient 5, scale 2)
becomes the float 1/20. -/
theorem C1_amended_witness :
    read_value (.ddecimal 5 (-(-2)) []) =
      .ok (.Float ((lowWordCoeff 5 : Rat) * (10 : Rat) ^ (-2 : Int)) []) ∧
    (lowWordCoeff 5 : Rat) * (10 : Rat) ^ (-2 : Int) = 1 / 20 :=
  ⟨C1_amended 5 (-2) [] (by decide) (by decide) (by decide),
   by norm_num [lowWordCoeff, wrapCast]⟩

/-- Counterexample to C3 as stated: the decoder-reported Blob tag, although
the value model has a `Blob` variant, is rejected by the builder with a
"type not supported" error instead of being converted to that variant. -/
theorem C3_counterexample :
    read_value (.dblob []) = .err (IonError.new (.TypeNotSupported "Blob") []) :=
  rfl

/-- C3 amended: the builder fails with a "type not supported" error naming
the decoder-reported tag exactly for the tags SExpr, Blob, Clob, Symbol and
Datagram (the Blob tag is rejected even though the value model has a `Blob`
variant); every scalar tag is converted to its variant, a decimal with
nonzero coefficient to a `Float`, and a struct or list whose contents build
is converted to its composite variant, while errors from composite contents
are propagated unchanged; no partial tree accompanies an error. -/
theorem C3_amended :
    (∀ ann : List String,
      read_value (.dsexp ann) = .err (IonError.new (.TypeNotSupported "SExpr") []) ∧
      read_value (.dblob ann) = .err (IonError.new (.TypeNotSupported "Blob") []) ∧
      read_value (.dclob ann) = .err (IonError.new (.TypeNotSupported "Clob") []) ∧
      read_value (.dsymbol ann) = .err (IonError.new (.TypeNotSupported "Symbol") []) ∧
      read_value (.ddatagram ann) = .err (IonError.new (.TypeNotSupported "Datagram") [])) ∧
    (∀ ann, read_value (.dnull ann) = .ok (.Null ann)) ∧
    (∀ b ann, read_value (.dbool b ann) = .ok (.Boolean b ann)) ∧
    (∀ i ann, read_value (.dint i ann) = .ok (.Integer i ann)) ∧
    (∀ f ann, read_value (.dfloat f ann) = .ok (.Float f ann)) ∧
    (∀ s ann, read_value (.dstring s ann) = .ok (.String s ann)) ∧
    (∀ t ann, read_value (.dtimestamp t ann) = .ok (.Timestamp t ann)) ∧
    (∀ c exp ann, c ≠ 0 → ∃ q, read_value (.ddecimal c exp ann) = .ok (.Float q ann)) ∧
    (∀ fields ann st, read_struct fields = .ok st →
      read_value (.dstruct fields ann) = .ok (.Struct st ann)) ∧
    (∀ fields ann e, read_value (.dstruct fields ann) = .err e ↔ read_struct fields = .err e) ∧
    (∀ items ann l, read_list items = .ok l →
      read_value (.dlist items ann) = .ok (.List l ann)) ∧
    (∀ items ann e, read_value (.dlist items ann) = .err e ↔ read_list items = .err e) := by
  refine ⟨fun ann => ⟨rfl, rfl, rfl, rfl, rfl⟩, fun ann => rfl, fun b ann => rfl,
    fun i ann => rfl, fun f ann => rfl, fun s ann => rfl, fun t ann => rfl,
    ?_, ?_, ?_, ?_, ?_⟩
  · intro c exp ann hc
    exact ⟨(lowWordCoeff c : Rat) / (10 : Rat) ^ wrapCast 32 exp,
      by simp [read_value, readDecimal, iterU64DigitsNext, hc, lowWordCoeff]⟩
  · intro fields ann st h
    unfold read_struct at h
    simp [read_value, h]
  · intro fields ann e
    unfold read_struct
    cases h : read_struct_fields [] fields <;> simp [read_value, h]
  · intro items ann l h
    unfold read_list at h
    simp [read_value, h]
  · intro items ann e
    unfold read_list
    cases h : read_list_items [] items <;> simp [read_value, h]

/-- Witness for C3 amended: a decimal with the nonzero coefficient 3
converts to a Float. -/
theorem C3_amended_witness :
    ∃ q, read_value (.ddecimal 3 0 []) = .ok (.Float q []) :=
  C3_amended.2.2.2.2.2.2.2.1 3 0 [] (by decide)

/-- C5: on a walker whose current node is a struct with path S, for any
kind K, `get_K` (the `type_fns!` shape `get_ty`) returns the matched value
when the field exists with tag K; returns a missing-field error with path
S plus the field name when it is absent; returns a wrong-type error carrying
the found tag, the expected tag and the path S plus the field name when it
has another tag; and `get_type` runs the deserializer on a child walker
whose path is S plus the field name, with the same missing-field error.
The concrete instance `get_integer` returns the integer payload. -/
theorem C5_get_field (w : IonWalker) (fields : IonStruct) (ann : List String)
    (f : String) (K : IonType) (hw : w.data = .Struct fields ann) :
    (∀ val, fields.field f = some val →
      (val.ty = K → w.get_ty K f = .ok val) ∧
      (val.ty ≠ K → w.get_ty K f =
        .error (IonError.new (.WrongType val.ty K) (w.scopes ++ [f])))) ∧
    (fields.field f = none → w.get_ty K f =
      .error (IonError.new (.MissingField f) (w.scopes ++ [f]))) ∧
    (∀ (T : Type) (des : IonWalker → IonResult T),
      (∀ val, fields.field f = some val →
        IonWalker.get_type des w f = des ⟨val, w.scopes ++ [f]⟩) ∧
      (fields.field f = none → IonWalker.get_type des w f =
        .error (IonError.new (.MissingField f) (w.scopes ++ [f])))) ∧
    (∀ i anni, fields.field f = some (.Integer i anni) → w.get_integer f = .ok i) := by
  obtain ⟨data, S⟩ := w
  cases hw
  refine ⟨?_, ?_, ?_, ?_⟩
  · intro val hval
    constructor
    · intro hty
      simp [IonWalker.get_ty, IonWalker.as_struct, hval, hty]
    · intro hty
      simp [IonWalker.get_ty, IonWalker.as_struct, hval, hty,
        IonWalker.clone_scopes_with]
  · intro hnone
    simp [IonWalker.get_ty, IonWalker.as_struct, hnone, IonWalker.clone_scopes_with]
  · intro T des
    constructor
    · intro val hval
      simp [IonWalker.get_type, IonWalker.as_struct, hval, IonWalker.clone_scopes_with]
    · intro hnone
      simp [IonWalker.get_type, IonWalker.as_struct, hnone, IonWalker.clone_scopes_with]
  · intro i anni hval
    simp [IonWalker.get_integer, IonWalker.get_ty, IonWalker.as_struct, hval,
      IonValue.ty, IonValue.as_int]

/-- Witness for C5 on the struct with one integer field "a" and path
["root"]: the present-and-matching, absent, and present-but-mismatched
probes. -/
theorem C5_witness :
    IonWalker.get_ty ⟨.Struct [("a", .Integer 3 [])] [], ["root"]⟩ .Integer "a" =
      .ok (.Integer 3 []) ∧
    IonWalker.get_ty ⟨.Struct [("a", .Integer 3 [])] [], ["root"]⟩ .Integer "b" =
      .error (IonError.new (.MissingField "b") ["root", "b"]) ∧
    IonWalker.get_ty ⟨.Struct [("a", .Integer 3 [])] [], ["root"]⟩ .String "a" =
      .error (IonError.new (.WrongType .Integer .String) ["root", "a"]) :=
  ⟨((C5_get_field _ [("a", .Integer 3 [])] [] "a" .Integer rfl).1 _ rfl).1 rfl,
   (C5_get_field _ [("a", .Integer 3 [])] [] "b" .Integer rfl).2.1 rfl,
   ((C5_get_field _ [("a", .Integer 3 [])] [] "a" .String rfl).1 _ rfl).2 (by decide)⟩

/-- Counterexample to C2 as stated: deserializing the single field "f"
(a string) as an integer fails, and the returned error carries the scope
path ["root"] exactly as passed in — the failing field name "f" is not
appended. -/
theorem C2_counterexample :
    IonStruct.into_map_of i64.deserialize [("f", .String "x" [])] (some ["root"]) =
      .error (IonError.new (.WrongType .String .Integer) ["root"]) ∧
    (["root"] : List String) ≠ ["root", "f"] := by
  constructor
  · rfl
  · simp

/-- C2 amended: when `into_map_of` fails, the error is exactly the
conversion error of one of the fields, produced with the accumulated scope
path passed through unchanged (the failing field name is not appended); on
success the returned map has exactly one converted entry per field of the
record (same keys, in model order). -/
theorem C2_amended {T : Type} (des : IonWalker → IonResult T)
    (fields : IonStruct) (scopes : Option (List String)) :
    (∀ e, IonStruct.into_map_of des fields scopes = .error e →
      ∃ k v, (k, v) ∈ fields ∧ des ⟨v, scopes.getD []⟩ = .error e) ∧
    (∀ m, IonStruct.into_map_of des fields scopes = .ok m →
      m.map Prod.fst = fields.map Prod.fst ∧
      ∀ k v, (k, v) ∈ fields → ∃ t, (k, t) ∈ m ∧ des ⟨v, scopes.getD []⟩ = .ok t) := by
  have go_spec : ∀ fs : IonStruct,
      (∀ e, into_map_go des (scopes.getD []) fs = .error e →
        ∃ k v, (k, v) ∈ fs ∧ des ⟨v, scopes.getD []⟩ = .error e) ∧
      (∀ m, into_map_go des (scopes.getD []) fs = .ok m →
        m.map Prod.fst = fs.map Prod.fst ∧
        ∀ k v, (k, v) ∈ fs → ∃ t, (k, t) ∈ m ∧ des ⟨v, scopes.getD []⟩ = .ok t) := by
    intro fs
    induction fs with
    | nil => simp [into_map_go]
    | cons p rest ih =>
      obtain ⟨k, v⟩ := p
      constructor
      · intro e he
        simp only [into_map_go, IonWalker.deserialize_with_scopes,
          IonWalker.with_scopes] at he
        cases hd : des ⟨v, scopes.getD []⟩ with
        | error e₁ =>
          simp [hd] at he
          exact ⟨k, v, List.mem_cons_self _ _, by rw [hd, he]⟩
        | ok t =>
          cases hr : into_map_go des (scopes.getD []) rest with
          | error e₂ =>
            simp [hd, hr] at he
            obtain ⟨k₁, v₁, hmem, herr⟩ := ih.1 e₂ hr
            exact ⟨k₁, v₁, List.mem_cons_of_mem _ hmem, by rw [herr, he]⟩
          | ok m => simp [hd, hr] at he
      · intro m hm
        simp only [into_map_go, IonWalker.deserialize_with_scopes,
          IonWalker.with_scopes] at hm
        cases hd : des ⟨v, scopes.getD []⟩ with
        | error e₁ => simp [hd] at hm
        | ok t =>
          cases hr : into_map_go des (scopes.getD []) rest with
          | error e₂ => simp [hd, hr] at hm
          | ok m₁ =>
            simp only [hd, hr] at hm
            obtain ⟨hkeys, hconv⟩ := ih.2 m₁ hr
            cases hm
            constructor
            · simp [hkeys]
            · rintro k₁ v₁ hmem
              rcases List.mem_cons.mp hmem with heq | hmem₁
              · rw [Prod.mk.injEq] at heq
                obtain ⟨rfl, rfl⟩ := heq
                exact ⟨t, List.mem_cons_self _ _, hd⟩
              · obtain ⟨t₁, htm, ht⟩ := hconv k₁ v₁ hmem₁
                exact ⟨t₁, List.mem_cons_of_mem _ htm, ht⟩
  simpa [IonStruct.into_map_of] using go_spec fields

/-- Witness for C2 amended: for the failing one-field record, the error
returned is the field conversion error at the unchanged scope path
["root"]. -/
theorem C2_amended_witness :
    ∃ k v, (k, v) ∈ ([("f", IonValue.String "x" [])] : IonStruct) ∧
      i64.deserialize ⟨v, (some ["root"] : Option (List String)).getD []⟩ =
        .error (IonError.new (.WrongType .String .Integer) ["root"]) :=
  (C2_amended i64.deserialize [("f", .String "x" [])] (some ["root"])).1
    (IonError.new (.WrongType .String .Integer) ["root"]) rfl

theorem read_list_items_ok : ∀ (top : DecItems) (acc out : IonList),
    read_list_items acc top = .ok out →
    ∃ items, out = acc ++ items ∧ decodesTo top items
  | .nil, acc, out, h => by
    simp only [read_list_items] at h
    cases h
    exact ⟨[], by simp, trivial⟩
  | .cons ev rest, acc, out, h => by
    simp only [read_list_items] at h
    cases hv : read_value ev with
    | ok v =>
      simp only [hv] at h
      obtain ⟨items, hout, hdec⟩ := read_list_items_ok rest (acc ++ [v]) out h
      exact ⟨v :: items, by simp [hout], hv, hdec⟩
    | err e => simp [hv] at h
    | panic => simp [hv] at h

/-- C9: a successful top-level build returns a list whose elements are
exactly the decoded top-level values in decode order, carrying no
annotations; the empty document builds to the empty list with no error. -/
theorem C9_top_level :
    read_string .nil = .ok (.List [] []) ∧
    ∀ top v, read_string top = .ok v →
      ∃ items, v = .List items [] ∧ decodesTo top items := by
  constructor
  · rfl
  · intro top v h
    unfold read_string at h
    cases hr : read_list_items [] top with
    | ok items =>
      simp only [hr] at h
      cases h
      obtain ⟨items₁, h1, h2⟩ := read_list_items_ok top [] items hr
      simp only [List.nil_append] at h1
      exact ⟨items, rfl, h1 ▸ h2⟩
    | err e => simp [hr] at h
    | panic => simp [hr] at h

/-- Witness for C9: a one-integer document builds to the one-element list. -/
theorem C9_witness :
    ∃ items, (IonValue.List [IonValue.Integer 7 []] []) = .List items [] ∧
      decodesTo (.cons (.dint 7 []) .nil) items :=
  C9_top_level.2 (.cons (.dint 7 []) .nil) (.List [.Integer 7 []] []) rfl

theorem field_mapInsert (k : String) (v : IonValue) (st : IonStruct) (name : String) :
    (mapInsert k v st).field name = if k = name then some v else st.field name := by
  induction st with
  | nil => simp [mapInsert, IonStruct.field]
  | cons p rest ih =>
    obtain ⟨k₁, v₁⟩ := p
    by_cases h₁ : k₁ = k
    · subst h₁
      by_cases h₂ : k₁ = name <;> simp [mapInsert, IonStruct.field, h₂]
    · by_cases h₂ : k₁ = name
      · subst h₂
        have h₃ : k ≠ k₁ := fun h => h₁ h.symm
        simp [mapInsert, h₁, IonStruct.field, h₃]
      · simp [mapInsert, h₁, IonStruct.field, h₂, ih]

theorem keys_mapInsert (k : String) (v : IonValue) (st : IonStruct) :
    (mapInsert k v st).map Prod.fst =
      if k ∈ st.map Prod.fst then st.map Prod.fst else st.map Prod.fst ++ [k] := by
  induction st with
  | nil => simp [mapInsert]
  | cons p rest ih =>
    obtain ⟨k₁, v₁⟩ := p
    by_cases h₁ : k₁ = k
    · subst h₁; simp [mapInsert]
    · have hne : ¬k = k₁ := fun h => h₁ h.symm
      simp only [mapInsert, if_neg h₁, List.map_cons, List.mem_cons]
      rw [ih]
      by_cases h₂ : k ∈ rest.map Prod.fst <;> simp [h₂, hne]

theorem nodup_keys_mapInsert (k : String) (v : IonValue) (st : IonStruct)
    (h : (st.map Prod.fst).Nodup) : ((mapInsert k v st).map Prod.fst).Nodup := by
  rw [keys_mapInsert]
  split
  · exact h
  · rename_i hnot
    simp [List.nodup_append, h, hnot]

theorem mem_keys_mapInsert (k : String) (v : IonValue) (st : IonStruct) (name : String) :
    name ∈ (mapInsert k v st).map Prod.fst ↔ name ∈ st.map Prod.fst ∨ name = k := by
  rw [keys_mapInsert]
  split
  · rename_i hin
    constructor
    · exact Or.inl
    · rintro (h | rfl)
      · exact h
      · exact hin
  · simp [List.mem_append]

theorem read_struct_fields_spec : ∀ (fields : DecFields) (acc st : IonStruct),
    read_struct_fields acc fields = .ok st →
    ((acc.map Prod.fst).Nodup → (st.map Prod.fst).Nodup) ∧
    (∀ name, name ∈ st.map Prod.fst ↔
      name ∈ acc.map Prod.fst ∨ name ∈ fieldNames fields) ∧
    (∀ name ev, lastEventFor name fields = some ev →
      ∃ v, read_value ev = .ok v ∧ st.field name = some v) ∧
    (∀ name, lastEventFor name fields = none → st.field name = acc.field name)
  | .nil, acc, st, h => by
    simp only [read_struct_fields] at h
    cases h
    exact ⟨id, by simp [fieldNames], by simp [lastEventFor], fun name _ => rfl⟩
  | .cons key ev rest, acc, st, h => by
    simp only [read_struct_fields] at h
    cases hv : read_value ev with
    | err e => simp [hv] at h
    | panic => simp [hv] at h
    | ok v =>
      simp only [hv] at h
      obtain ⟨hnd, hmem, hlast, hnone⟩ :=
        read_struct_fields_spec rest (mapInsert key v acc) st h
      refine ⟨?_, ?_, ?_, ?_⟩
      · intro hacc
        exact hnd (nodup_keys_mapInsert key v acc hacc)
      · intro name
        rw [hmem name, mem_keys_mapInsert]
        simp only [fieldNames, List.mem_cons]
        tauto
      · intro name ev₁ hle
        simp only [lastEventFor] at hle
        cases hr : lastEventFor name rest with
        | some e₁ =>
          simp only [hr] at hle
          cases hle
          exact hlast name ev₁ hr
        | none =>
          simp only [hr] at hle
          by_cases hk : key = name
          · rw [if_pos hk] at hle
            cases hle
            refine ⟨v, hv, ?_⟩
            rw [hnone name hr, field_mapInsert]
            simp [hk]
          · rw [if_neg hk] at hle
            cases hle
      · intro name hle
        simp only [lastEventFor] at hle
        cases hr : lastEventFor name rest with
        | some e₁ =>
          simp only [hr] at hle
          cases hle
        | none =>
          simp only [hr] at hle
          by_cases hk : key = name
          · rw [if_pos hk] at hle
            cases hle
          · rw [hnone name hr, field_mapInsert, if_neg hk]

/-- C6: a successfully built record holds exactly one value per distinct
field name — the keys are duplicate-free, the stored value for each name is
the value decoded from the last occurrence of that name in decode order,
the key set is exactly the set of decoded names, and the field count equals
the number of distinct names. -/
theorem C6_duplicate_fields (fields : DecFields) (st : IonStruct)
    (h : read_struct fields = .ok st) :
    (st.map Prod.fst).Nodup ∧
    st.length = (fieldNames fields).dedup.length ∧
    (∀ name ev, lastEventFor name fields = some ev →
      ∃ v, read_value ev = .ok v ∧ st.field name = some v) ∧
    (∀ name, name ∈ st.map Prod.fst ↔ name ∈ fieldNames fields) := by
  unfold read_struct at h
  obtain ⟨hnd, hmem, hlast, _⟩ := read_struct_fields_spec fields [] st h
  have hnodup : (st.map Prod.fst).Nodup := hnd (by simp)
  have hm : ∀ name, name ∈ st.map Prod.fst ↔ name ∈ fieldNames fields := by
    intro name
    rw [hmem name]
    simp
  refine ⟨hnodup, ?_, hlast, hm⟩
  have hperm : List.Perm (st.map Prod.fst) ((fieldNames fields).dedup) := by
    apply (List.perm_ext_iff_of_nodup hnodup (List.nodup_dedup _)).mpr
    intro a
    rw [List.mem_dedup]
    exact hm a
  have hlen : (st.map Prod.fst).length = (fieldNames fields).dedup.length :=
    hperm.length_eq
  simpa using hlen

/-- Witness for C6 on the struct events a:1, b:5, a:2 — the built record is
a:2, b:5 with duplicate-free keys and 2 = number of distinct names, and the
stored "a" is the value of the last occurrence. -/
theorem C6_witness :
    (([("a", IonValue.Integer 2 []), ("b", IonValue.Integer 5 [])] : IonStruct).map
      Prod.fst).Nodup ∧
    ([("a", IonValue.Integer 2 []), ("b", IonValue.Integer 5 [])] : IonStruct).length =
      (fieldNames (.cons "a" (.dint 1 []) (.cons "b" (.dint 5 [])
        (.cons "a" (.dint 2 []) .nil)))).dedup.length ∧
    (∃ v, read_value (.dint 2 []) = .ok v ∧
      IonStruct.field [("a", IonValue.Integer 2 []), ("b", IonValue.Integer 5 [])] "a" =
        some v) :=
  have h := C6_duplicate_fields
    (.cons "a" (.dint 1 []) (.cons "b" (.dint 5 []) (.cons "a" (.dint 2 []) .nil)))
    [("a", IonValue.Integer 2 []), ("b", IonValue.Integer 5 [])] rfl
  ⟨h.1, h.2.1, h.2.2.1 "a" (.dint 2 []) rfl⟩
